import Mathlib

/-!
Verification of the `segment-string` library (src/index.ts): a wrapper over
an external locale-aware segmentation engine providing cached engine
instances, word-like filtering, counting, and (possibly negative) indexing.

The external engine (`Intl.Segmenter`) is out of scope of the library; it is
modelled abstractly by a parameter
`intl : Option LocalesArgument → Granularity → String → List SegmentData`
giving, for each construction pair, the (deterministic, restartable) segment
stream the engine produces for a string.  Lazy streams are modelled by the
lists they enumerate; the process-wide mutable segmenter cache is modelled
by explicit state passing of a `SegmenterCaches` value.
-/

/-- The segmentation granularity: `'grapheme' | 'word' | 'sentence'`. -/
inductive Granularity where
  | grapheme
  | word
  | sentence
deriving DecidableEq, Repr

/-- One element of `Intl.SegmenterOptions`-style locales argument:
a plain locale string, or an `Intl.Locale` object (represented by its
canonical `toString` form), or an array of tags (each element represented by
its `toString` form).  Absence (`undefined`/`null`) is `Option.none` at use
sites. -/
inductive LocalesArgument where
  | str (s : String)
  | locale (canonical : String)
  | list (tags : List String)
deriving DecidableEq, Repr

/-- `Array.prototype.join("-")` on the already-stringified tags. -/
def joinDash : List String → String
  | [] => ""
  | [t] => t
  | t :: rest => t ++ "-" ++ joinDash rest

/-- `normalizeLocaleKey(locales)`: arrays map each element to its string form
and join with `"-"`; otherwise a truthy value maps to its string form and a
falsy one (`undefined`, `null`, `""`) to the sentinel `"default"`.  (A plain
string is falsy exactly when empty; an `Intl.Locale` object is always
truthy.) -/
def normalizeLocaleKey : Option LocalesArgument → String
  | some (.list tags) => joinDash tags
  | some (.str s) => if s = "" then "default" else s
  | some (.locale c) => c
  | none => "default"

/-- A segment record as produced by the engine:
`{segment, index, isWordLike}` with `isWordLike` absent (`none`) except
under word granularity. -/
structure SegmentData where
  segment : String
  index : Nat
  isWordLike : Option Bool
deriving DecidableEq, Repr

/-- An engine instance: opaque, bound to exactly the `(locales, granularity)`
pair it was constructed with (`new Intl.Segmenter(locales, {granularity})`). -/
structure Segmenter where
  locales : Option LocalesArgument
  granularity : Granularity
deriving DecidableEq, Repr

/-- The behaviour of the external engine: the stream an engine constructed
with a given pair produces for a string. -/
abbrev EngineModel := Option LocalesArgument → Granularity → String → List SegmentData

/-- `segmenter.segment(str)` for the engine behaviour `intl`. -/
def Segmenter.segmentText (intl : EngineModel) (s : Segmenter) (str : String) :
    List SegmentData :=
  intl s.locales s.granularity str

/-- `Map.get(key)` on an association list kept in insertion order. -/
def mapGet (key : String) : List (String × Segmenter) → Option Segmenter
  | [] => none
  | (k, v) :: rest => if k = key then some v else mapGet key rest

/-- `Map.set(key, v)`: replace in place if the key is bound, else append. -/
def mapSet (key : String) (v : Segmenter) :
    List (String × Segmenter) → List (String × Segmenter)
  | [] => [(key, v)]
  | (k, w) :: rest =>
      if k = key then (k, v) :: rest else (k, w) :: mapSet key v rest

/-- `segmenterCachesByGranularity`: one `Map<string, Intl.Segmenter>` per
granularity. -/
structure SegmenterCaches where
  grapheme : List (String × Segmenter)
  word : List (String × Segmenter)
  sentence : List (String × Segmenter)
deriving DecidableEq, Repr

/-- The initial state: three empty maps. -/
def emptyCaches : SegmenterCaches := ⟨[], [], []⟩

/-- `segmenterCachesByGranularity[granularity]`. -/
def cacheFor (st : SegmenterCaches) : Granularity → List (String × Segmenter)
  | .grapheme => st.grapheme
  | .word => st.word
  | .sentence => st.sentence

/-- Writing back the per-granularity map. -/
def setCacheFor (st : SegmenterCaches) :
    Granularity → List (String × Segmenter) → SegmenterCaches
  | .grapheme, m => ⟨m, st.word, st.sentence⟩
  | .word, m => ⟨st.grapheme, m, st.sentence⟩
  | .sentence, m => ⟨st.grapheme, st.word, m⟩

/-- `getCachedSegmenter(locales, granularity)`: look the normalized key up in
the per-granularity map; on a miss construct `new Intl.Segmenter(locales,
{granularity})`, store it under the key, and return it. -/
def getCachedSegmenter (locales : Option LocalesArgument)
    (granularity : Granularity) (st : SegmenterCaches) :
    Segmenter × SegmenterCaches :=
  let cache := cacheFor st granularity
  let cacheKey := normalizeLocaleKey locales
  match mapGet cacheKey cache with
  | some segmenter => (segmenter, st)
  | none =>
      let segmenter : Segmenter := ⟨locales, granularity⟩
      (segmenter, setCacheFor st granularity (mapSet cacheKey segmenter cache))

/-- Options for segmentation calls.  The source distinguishes
`SegmentationOptions` (`localesOverride?`) from `WordSegmentationOptions`
(adding `isWordLike?`) only in the type layer; at runtime one object shape
flows through, so both are modelled by one structure with `none` for an
absent field. -/
structure Options where
  localesOverride : Option LocalesArgument
  isWordLike : Option Bool
deriving DecidableEq, Repr

/-- `filterRawWordLikeSegments(segments)`: the generator yielding exactly the
records whose `isWordLike` is truthy (i.e. `true`). -/
def filterRawWordLikeSegments : List SegmentData → List SegmentData
  | [] => []
  | segmentData :: rest =>
      if segmentData.isWordLike = some true then
        segmentData :: filterRawWordLikeSegments rest
      else
        filterRawWordLikeSegments rest

/-- `filterWordLikeSegments(segments)`: the generator yielding
`segmentData.segment` for exactly the records whose `isWordLike` is truthy. -/
def filterWordLikeSegments : List SegmentData → List String
  | [] => []
  | segmentData :: rest =>
      if segmentData.isWordLike = some true then
        segmentData.segment :: filterWordLikeSegments rest
      else
        filterWordLikeSegments rest

/-- `getRawSegments(str, granularity, options)`: fetch the (cached) segmenter
for `options.localesOverride`, stream the segments of `str`, and apply the
word-like filter exactly when `granularity === "word"` and
`options.isWordLike` is truthy. -/
def getRawSegments (intl : EngineModel) (str : String) (granularity : Granularity)
    (options : Options) (st : SegmenterCaches) :
    List SegmentData × SegmenterCaches :=
  let locales := options.localesOverride
  let res := getCachedSegmenter locales granularity st
  let segments := Segmenter.segmentText intl res.1 str
  if granularity = Granularity.word ∧ options.isWordLike = some true then
    (filterRawWordLikeSegments segments, res.2)
  else
    (segments, res.2)

/-- `getSegments(str, granularity, options)`: the raw segments projected to
their `segment` text by the wrapping generator. -/
def getSegments (intl : EngineModel) (str : String) (granularity : Granularity)
    (options : Options) (st : SegmenterCaches) :
    List String × SegmenterCaches :=
  let res := getRawSegments intl str granularity options st
  (res.1.map (fun segmentData => segmentData.segment), res.2)

/-- `segmentCount(str, granularity, options)`: counting loop over
`getSegments`. -/
def segmentCount (intl : EngineModel) (str : String) (granularity : Granularity)
    (options : Options) (st : SegmenterCaches) : Nat × SegmenterCaches :=
  let res := getSegments intl str granularity options st
  (res.1.length, res.2)

/-- The forward walk of `segmentAt` for `index ≥ 0`: compare the running
`currentIndex` counter against `index`, returning the matching element, or
`undefined` when the stream is exhausted. -/
def segmentAtForward (index : Int) : List String → Int → Option String
  | [], _ => none
  | segment :: rest, currentIndex =>
      if index = currentIndex then some segment
      else segmentAtForward index rest (currentIndex + 1)

/-- `Array.prototype.at(i)`: resolve `i < 0` to `length + i`; return the
element there, or `undefined` when the resolved position is outside
`[0, length)`. -/
def arrayAt (l : List String) (i : Int) : Option String :=
  let k : Int := if 0 ≤ i then i else (l.length : Int) + i
  if 0 ≤ k ∧ k < (l.length : Int) then l.get? k.toNat else none

/-- `segmentAt(str, index, granularity, options)`: negative indices
materialize the stream (`[...segments].at(index)`); non-negative indices walk
the stream forward with a zero-based counter. -/
def segmentAt (intl : EngineModel) (str : String) (index : Int)
    (granularity : Granularity) (options : Options) (st : SegmenterCaches) :
    Option String × SegmenterCaches :=
  let res := getSegments intl str granularity options st
  if index < 0 then (arrayAt res.1 index, res.2)
  else (segmentAtForward index res.1 0, res.2)

/-- Alias for the free `segmentCount`, visible inside the `SegmentString`
method of the same name. -/
def segmentCountFn : EngineModel → String → Granularity → Options →
    SegmenterCaches → Nat × SegmenterCaches :=
  segmentCount

/-- Alias for the free `segmentAt`, visible inside the `SegmentString`
method of the same name. -/
def segmentAtFn : EngineModel → String → Int → Granularity → Options →
    SegmenterCaches → Option String × SegmenterCaches :=
  segmentAt

/-- The `SegmentString` class state: the wrapped string and the
construction-time default locales. -/
structure SegmentString where
  str : String
  locales : Option LocalesArgument
deriving DecidableEq, Repr

/-- `const { localesOverride = this.locales } = options`: the per-call
override when present, else the stored default. -/
def SegmentString.effectiveLocales (self : SegmentString) (options : Options) :
    Option LocalesArgument :=
  match options.localesOverride with
  | some lo => some lo
  | none => self.locales

/-- `SegmentString#segments(granularity, options)`. -/
def SegmentString.segments (intl : EngineModel) (self : SegmentString)
    (granularity : Granularity) (options : Options) (st : SegmenterCaches) :
    List String × SegmenterCaches :=
  getSegments intl self.str granularity
    ⟨self.effectiveLocales options, options.isWordLike⟩ st

/-- `SegmentString#rawSegments(granularity, options)`. -/
def SegmentString.rawSegments (intl : EngineModel) (self : SegmentString)
    (granularity : Granularity) (options : Options) (st : SegmenterCaches) :
    List SegmentData × SegmenterCaches :=
  getRawSegments intl self.str granularity
    ⟨self.effectiveLocales options, options.isWordLike⟩ st

/-- `SegmentString#segmentCount(granularity, options)`. -/
def SegmentString.segmentCount (intl : EngineModel) (self : SegmentString)
    (granularity : Granularity) (options : Options) (st : SegmenterCaches) :
    Nat × SegmenterCaches :=
  segmentCountFn intl self.str granularity
    ⟨self.effectiveLocales options, options.isWordLike⟩ st

/-- `SegmentString#segmentAt(index, granularity, options)`. -/
def SegmentString.segmentAt (intl : EngineModel) (self : SegmentString)
    (index : Int) (granularity : Granularity) (options : Options)
    (st : SegmenterCaches) : Option String × SegmenterCaches :=
  segmentAtFn intl self.str index granularity
    ⟨self.effectiveLocales options, options.isWordLike⟩ st

/-- `SegmentString#graphemes(options)`. -/
def SegmentString.graphemes (intl : EngineModel) (self : SegmentString)
    (options : Options) (st : SegmenterCaches) :
    List String × SegmenterCaches :=
  self.segments intl Granularity.grapheme options st

/-- `SegmentString#graphemeAt(index, options)`. -/
def SegmentString.graphemeAt (intl : EngineModel) (self : SegmentString)
    (index : Int) (options : Options) (st : SegmenterCaches) :
    Option String × SegmenterCaches :=
  self.segmentAt intl index Granularity.grapheme options st

/-- `SegmentString#words(options)`. -/
def SegmentString.words (intl : EngineModel) (self : SegmentString)
    (options : Options) (st : SegmenterCaches) :
    List String × SegmenterCaches :=
  self.segments intl Granularity.word options st

/-- `SegmentString#wordAt(index, options)`. -/
def SegmentString.wordAt (intl : EngineModel) (self : SegmentString)
    (index : Int) (options : Options) (st : SegmenterCaches) :
    Option String × SegmenterCaches :=
  self.segmentAt intl index Granularity.word options st

/-- `SegmentString#sentences(options)`. -/
def SegmentString.sentences (intl : EngineModel) (self : SegmentString)
    (options : Options) (st : SegmenterCaches) :
    List String × SegmenterCaches :=
  self.segments intl Granularity.sentence options st

/-- `SegmentString#sentenceAt(index, options)`. -/
def SegmentString.sentenceAt (intl : EngineModel) (self : SegmentString)
    (index : Int) (options : Options) (st : SegmenterCaches) :
    Option String × SegmenterCaches :=
  self.segmentAt intl index Granularity.sentence options st

/-- A per-character segmentation engine used as a concrete instance of the
abstract engine model in witnesses. -/
def charSegsFrom : Nat → List Char → List SegmentData
  | _, [] => []
  | pos, c :: rest => ⟨String.mk [c], pos, some true⟩ :: charSegsFrom (pos + 1) rest

/-- A concrete engine model: every constructed segmenter splits a string
into its characters. -/
def charEngine : EngineModel := fun _ _ str => charSegsFrom 0 str.data

/-- Concatenation of the texts of a record stream. -/
def concatSegments (segs : List SegmentData) : String :=
  String.join (segs.map (fun s => s.segment))

/-- Modelled from the spec (section 3 invariants, section 6 engine contract),
since the engine itself is outside the library: a record stream is
well-formed when records are contiguous — each record starts where the
previous one ended, starting at offset `pos` — and no record is empty. -/
def validFrom (pos : Nat) : List SegmentData → Bool
  | [] => true
  | s :: rest =>
      decide (s.index = pos) && decide (s.segment.length ≠ 0) &&
        validFrom (pos + s.segment.length) rest

/-- Start offsets are strictly increasing along the stream. -/
def offsetsIncreasing : List SegmentData → Bool
  | [] => true
  | [_] => true
  | a :: b :: rest => decide (a.index < b.index) && offsetsIncreasing (b :: rest)

theorem mapGet_mapSet_self (key : String) (v : Segmenter)
    (m : List (String × Segmenter)) : mapGet key (mapSet key v m) = some v := by
  induction m with
  | nil => simp [mapSet, mapGet]
  | cons hd tl ih =>
      obtain ⟨k, w⟩ := hd
      by_cases h : k = key
      · simp [mapSet, mapGet, h]
      · simp [mapSet, mapGet, h, ih]

theorem mapGet_mapSet_of_ne (key k' : String) (v : Segmenter)
    (m : List (String × Segmenter)) (h : k' ≠ key) :
    mapGet k' (mapSet key v m) = mapGet k' m := by
  induction m with
  | nil =>
      simp only [mapSet, mapGet]
      rw [if_neg (fun hh => h hh.symm)]
  | cons hd tl ih =>
      obtain ⟨k, w⟩ := hd
      by_cases hk : k = key
      · subst hk
        simp only [mapSet, if_pos rfl, mapGet]
        rw [if_neg (fun hh => h hh.symm), if_neg (fun hh => h hh.symm)]
      · simp [mapSet, mapGet, hk, ih]

theorem cacheFor_setCacheFor_self (st : SegmenterCaches) (g : Granularity)
    (m : List (String × Segmenter)) : cacheFor (setCacheFor st g m) g = m := by
  cases g <;> rfl

theorem cacheFor_setCacheFor_of_ne (st : SegmenterCaches) (g g' : Granularity)
    (m : List (String × Segmenter)) (h : g' ≠ g) :
    cacheFor (setCacheFor st g m) g' = cacheFor st g' := by
  cases g <;> cases g' <;> first | rfl | exact absurd rfl h

/-- After a `getCachedSegmenter` call, the key is bound to the returned
segmenter. -/
theorem getCachedSegmenter_lookup (lo : Option LocalesArgument)
    (g : Granularity) (st : SegmenterCaches) :
    mapGet (normalizeLocaleKey lo) (cacheFor (getCachedSegmenter lo g st).2 g) =
      some (getCachedSegmenter lo g st).1 := by
  unfold getCachedSegmenter
  cases h : mapGet (normalizeLocaleKey lo) (cacheFor st g) with
  | some s => simp [h]
  | none => simp [h, cacheFor_setCacheFor_self, mapGet_mapSet_self]

/-- A hit returns the cached segmenter and leaves the state unchanged. -/
theorem getCachedSegmenter_hit (lo : Option LocalesArgument) (g : Granularity)
    (st : SegmenterCaches) (s : Segmenter)
    (h : mapGet (normalizeLocaleKey lo) (cacheFor st g) = some s) :
    getCachedSegmenter lo g st = (s, st) := by
  unfold getCachedSegmenter
  simp [h]

/-- Existing bindings survive a `getCachedSegmenter` call unchanged. -/
theorem getCachedSegmenter_preserves (lo : Option LocalesArgument)
    (g g' : Granularity) (k : String) (v : Segmenter) (st : SegmenterCaches)
    (h : mapGet k (cacheFor st g') = some v) :
    mapGet k (cacheFor (getCachedSegmenter lo g st).2 g') = some v := by
  unfold getCachedSegmenter
  cases hl : mapGet (normalizeLocaleKey lo) (cacheFor st g) with
  | some s => simpa [hl] using h
  | none =>
      by_cases hg : g' = g
      · subst hg
        have hk : k ≠ normalizeLocaleKey lo := by
          intro hk
          rw [hk] at h
          rw [h] at hl
          exact Option.noConfusion hl
        simp [hl, cacheFor_setCacheFor_self, mapGet_mapSet_of_ne _ _ _ _ hk, h]
      · simp [hl, cacheFor_setCacheFor_of_ne _ _ _ _ hg, h]

/-- A call whose locale specification normalizes to the same key as an
earlier call returns the segmenter the earlier call left in the cache, and
changes nothing. -/
theorem getCachedSegmenter_same_key (lo lo' : Option LocalesArgument)
    (g : Granularity) (st : SegmenterCaches)
    (hkey : normalizeLocaleKey lo' = normalizeLocaleKey lo) :
    getCachedSegmenter lo' g ((getCachedSegmenter lo g st).2) =
      ((getCachedSegmenter lo g st).1, (getCachedSegmenter lo g st).2) := by
  apply getCachedSegmenter_hit
  rw [hkey]
  exact getCachedSegmenter_lookup lo g st

/-- The state returned by `getRawSegments` is exactly the state after the
cache lookup. -/
theorem getRawSegments_state (intl : EngineModel) (str : String)
    (g : Granularity) (opts : Options) (st : SegmenterCaches) :
    (getRawSegments intl str g opts st).2 =
      (getCachedSegmenter opts.localesOverride g st).2 := by
  unfold getRawSegments
  split <;> rfl

/-- C4: the segmenter cache has get-or-create semantics — on a miss the
newly constructed engine is stored under the normalized key before being
returned, existing bindings are never evicted or replaced, and a later call
whose locale specification normalizes to the same key returns the identical
cached instance while changing nothing. -/
theorem claim_C4 (lo lo' : Option LocalesArgument) (g : Granularity)
    (st : SegmenterCaches)
    (hkey : normalizeLocaleKey lo' = normalizeLocaleKey lo) :
    mapGet (normalizeLocaleKey lo) (cacheFor (getCachedSegmenter lo g st).2 g) =
      some (getCachedSegmenter lo g st).1
    ∧ (∀ g' k v, mapGet k (cacheFor st g') = some v →
        mapGet k (cacheFor (getCachedSegmenter lo g st).2 g') = some v)
    ∧ (mapGet (normalizeLocaleKey lo) (cacheFor st g) = none →
        (getCachedSegmenter lo g st).1 = ⟨lo, g⟩)
    ∧ getCachedSegmenter lo' g ((getCachedSegmenter lo g st).2) =
        ((getCachedSegmenter lo g st).1, (getCachedSegmenter lo g st).2) := by
  refine ⟨getCachedSegmenter_lookup lo g st, ?_, ?_, ?_⟩
  · intro g' k v h
    exact getCachedSegmenter_preserves lo g g' k v st h
  · intro h
    unfold getCachedSegmenter
    simp [h]
  · exact getCachedSegmenter_same_key lo lo' g st hkey

/-- Witness for C4 at a concrete input: the second of two calls whose locale
specifications normalize to the same key returns the instance cached by the
first and leaves the cache unchanged. -/
theorem claim_C4_witness :
    getCachedSegmenter (some (LocalesArgument.str "")) Granularity.word
        ((getCachedSegmenter none Granularity.word emptyCaches).2) =
      ((getCachedSegmenter none Granularity.word emptyCaches).1,
        (getCachedSegmenter none Granularity.word emptyCaches).2) :=
  (claim_C4 none (some (LocalesArgument.str "")) Granularity.word emptyCaches
    (by decide)).2.2.2

/-- C9: re-enumerating the same `(text, granularity, options)` twice — the
second call running on the cache state the first call left behind — yields
an identical, identically ordered sequence (and an identical state). -/
theorem claim_C9 (intl : EngineModel) (str : String) (g : Granularity)
    (opts : Options) (st : SegmenterCaches) :
    getSegments intl str g opts ((getSegments intl str g opts st).2) =
      getSegments intl str g opts st := by
  have hsame := getCachedSegmenter_same_key opts.localesOverride
    opts.localesOverride g st rfl
  show getSegments intl str g opts ((getRawSegments intl str g opts st).2) = _
  rw [getRawSegments_state]
  simp only [getSegments, getRawSegments]
  rw [hsame]

/-- C10: `undefined`/`null` (modelled by `none`) and the empty string and
the literal string `"default"` all normalize to the sentinel key
`"default"`, so they share one cache entry and engine instance; the empty
locale array normalizes to `""`, a different key, and gets its own distinct
engine. -/
theorem claim_C10 :
    normalizeLocaleKey none = "default"
    ∧ normalizeLocaleKey (some (LocalesArgument.str "")) = "default"
    ∧ normalizeLocaleKey (some (LocalesArgument.str "default")) = "default"
    ∧ normalizeLocaleKey (some (LocalesArgument.list [])) = ""
    ∧ ("" : String) ≠ "default"
    ∧ (∀ g st, getCachedSegmenter (some (LocalesArgument.str "")) g
          ((getCachedSegmenter none g st).2) =
        ((getCachedSegmenter none g st).1, (getCachedSegmenter none g st).2))
    ∧ (∀ g st, getCachedSegmenter (some (LocalesArgument.str "default")) g
          ((getCachedSegmenter none g st).2) =
        ((getCachedSegmenter none g st).1, (getCachedSegmenter none g st).2))
    ∧ (getCachedSegmenter (some (LocalesArgument.list [])) Granularity.word
          ((getCachedSegmenter none Granularity.word emptyCaches).2)).1 ≠
        (getCachedSegmenter none Granularity.word emptyCaches).1 := by
  refine ⟨rfl, by decide, by decide, rfl, by decide, ?_, ?_, by decide⟩
  · intro g st
    exact getCachedSegmenter_same_key none (some (LocalesArgument.str "")) g st
      (by decide)
  · intro g st
    exact getCachedSegmenter_same_key none (some (LocalesArgument.str "default"))
      g st (by decide)

/-- C6: `filterRawWordLikeSegments` yields exactly the subsequence of
records with `isWordLike = true` — it equals `List.filter` and is a sublist
of the input, so order is preserved and records are unchanged — and
`filterWordLikeSegments` is its text projection. -/
theorem claim_C6 (segs : List SegmentData) :
    filterRawWordLikeSegments segs =
      segs.filter (fun s => decide (s.isWordLike = some true))
    ∧ List.Sublist (filterRawWordLikeSegments segs) segs
    ∧ filterWordLikeSegments segs =
      (filterRawWordLikeSegments segs).map (fun s => s.segment) := by
  have hfilter : filterRawWordLikeSegments segs =
      segs.filter (fun s => decide (s.isWordLike = some true)) := by
    induction segs with
    | nil => rfl
    | cons s rest ih =>
        by_cases h : s.isWordLike = some true
        · simp [filterRawWordLikeSegments, List.filter, h, ih]
        · simp [filterRawWordLikeSegments, List.filter, h, ih]
  have hmap : filterWordLikeSegments segs =
      (filterRawWordLikeSegments segs).map (fun s => s.segment) := by
    clear hfilter
    induction segs with
    | nil => rfl
    | cons s rest ih =>
        by_cases h : s.isWordLike = some true
        · simp [filterWordLikeSegments, filterRawWordLikeSegments, h, ih]
        · simp [filterWordLikeSegments, filterRawWordLikeSegments, h, ih]
  refine ⟨hfilter, ?_, hmap⟩
  rw [hfilter]
  exact List.filter_sublist segs

/-- C7: for a non-word granularity the `isWordLike` option is ignored —
`getRawSegments`, `getSegments`, `segmentCount` and `segmentAt` return
exactly what the same call without the option returns. -/
theorem claim_C7 (intl : EngineModel) (str : String) (g : Granularity)
    (opts : Options) (st : SegmenterCaches) (i : Int)
    (hg : g ≠ Granularity.word) :
    getRawSegments intl str g opts st =
      getRawSegments intl str g ⟨opts.localesOverride, none⟩ st
    ∧ getSegments intl str g opts st =
      getSegments intl str g ⟨opts.localesOverride, none⟩ st
    ∧ segmentCount intl str g opts st =
      segmentCount intl str g ⟨opts.localesOverride, none⟩ st
    ∧ segmentAt intl str i g opts st =
      segmentAt intl str i g ⟨opts.localesOverride, none⟩ st := by
  have hraw : getRawSegments intl str g opts st =
      getRawSegments intl str g ⟨opts.localesOverride, none⟩ st := by
    simp only [getRawSegments]
    rw [if_neg (fun h => hg h.1), if_neg (fun h => hg h.1)]
  exact ⟨hraw, by simp only [getSegments, hraw],
    by simp only [segmentCount, getSegments, hraw],
    by simp only [segmentAt, getSegments, hraw]⟩

/-- Witness for C7 at a concrete input: a grapheme call with
`isWordLike: true` returns exactly what the call without the option
returns. -/
theorem claim_C7_witness :
    getSegments charEngine "ab" Granularity.grapheme ⟨none, some true⟩
        emptyCaches =
      getSegments charEngine "ab" Granularity.grapheme ⟨none, none⟩
        emptyCaches :=
  (claim_C7 charEngine "ab" Granularity.grapheme ⟨none, some true⟩ emptyCaches 0
    (by decide)).2.1

/-- C8: a per-call `localesOverride` is scoped strictly to its call — the
call with an override behaves as the free function with that override, and
any later call on the same `SegmentString` value without an override (from
any cache state a previous call may have produced) behaves as the free
function at the construction-time default, for `segments`, `rawSegments`,
`segmentCount`, `segmentAt` and the granularity wrappers. -/
theorem claim_C8 (intl : EngineModel) (s : String)
    (dflt : Option LocalesArgument) (ov : LocalesArgument) (g : Granularity)
    (wl wl' : Option Bool) (i : Int) (st st' : SegmenterCaches) :
    SegmentString.segments intl ⟨s, dflt⟩ g ⟨some ov, wl⟩ st =
      getSegments intl s g ⟨some ov, wl⟩ st
    ∧ SegmentString.segments intl ⟨s, dflt⟩ g ⟨none, wl'⟩ st' =
      getSegments intl s g ⟨dflt, wl'⟩ st'
    ∧ SegmentString.rawSegments intl ⟨s, dflt⟩ g ⟨none, wl'⟩ st' =
      getRawSegments intl s g ⟨dflt, wl'⟩ st'
    ∧ SegmentString.segmentCount intl ⟨s, dflt⟩ g ⟨none, wl'⟩ st' =
      segmentCount intl s g ⟨dflt, wl'⟩ st'
    ∧ SegmentString.segmentAt intl ⟨s, dflt⟩ i g ⟨none, wl'⟩ st' =
      segmentAt intl s i g ⟨dflt, wl'⟩ st'
    ∧ SegmentString.wordAt intl ⟨s, dflt⟩ i ⟨none, wl'⟩ st' =
      segmentAt intl s i Granularity.word ⟨dflt, wl'⟩ st'
    ∧ SegmentString.graphemes intl ⟨s, dflt⟩ ⟨none, wl'⟩ st' =
      getSegments intl s Granularity.grapheme ⟨dflt, wl'⟩ st'
    ∧ SegmentString.sentences intl ⟨s, dflt⟩ ⟨none, wl'⟩ st' =
      getSegments intl s Granularity.sentence ⟨dflt, wl'⟩ st' :=
  ⟨rfl, rfl, rfl, rfl, rfl, rfl, rfl, rfl⟩

/-- The forward walk started at counter `c` finds position `c + k` exactly
where `List.get?` finds position `k`. -/
theorem segmentAtForward_spec (l : List String) : ∀ (k : Nat) (c : Int),
    segmentAtForward (c + k) l c = l.get? k := by
  induction l with
  | nil => intro k c; rfl
  | cons s rest ih =>
      intro k c
      cases k with
      | zero => simp [segmentAtForward]
      | succ k =>
          have hne : c + ((k : Nat) + 1 : Nat) ≠ c := by omega
          have hstep : (c + ((k : Nat) + 1 : Nat) : Int) = (c + 1) + k := by
            push_cast
            ring
          simp only [segmentAtForward, if_neg hne]
          rw [hstep]
          exact ih k (c + 1)

/-- The forward walk from counter `0` at a non-negative index is
`List.get?`. -/
theorem segmentAtForward_nonneg (l : List String) (i : Int) (h : 0 ≤ i) :
    segmentAtForward i l 0 = l.get? i.toNat := by
  conv_lhs => rw [show i = (0 : Int) + (i.toNat : Int) by omega]
  exact segmentAtForward_spec l i.toNat 0

/-- `List.get?` at `length - 1` is the last element. -/
theorem get?_length_sub_one : ∀ (l : List String),
    l.get? (l.length - 1) = l.getLast?
  | [] => rfl
  | [_] => rfl
  | a :: b :: t => by
      rw [List.getLast?_cons_cons]
      have ih := get?_length_sub_one (b :: t)
      simpa using ih

/-- `List.get?` at the length is off the end. -/
theorem get?_length_self : ∀ (l : List String), l.get? l.length = none
  | [] => rfl
  | _ :: t => get?_length_self t

/-- `Array.prototype.at(-1)` is the last element. -/
theorem arrayAt_neg_one (l : List String) : arrayAt l (-1) = l.getLast? := by
  cases l with
  | nil => simp [arrayAt]
  | cons s rest =>
      simp only [arrayAt, List.length_cons]
      rw [if_neg (by omega : ¬ (0 : Int) ≤ -1)]
      rw [if_pos (by constructor <;> omega)]
      rw [show (((rest.length + 1 : Nat) : Int) + -1).toNat = rest.length by
        omega]
      have h := get?_length_sub_one (s :: rest)
      simpa using h

/-- `Array.prototype.at(-length)` on a non-empty list is the first
element. -/
theorem arrayAt_neg_length (s : String) (rest : List String) :
    arrayAt (s :: rest) (-(((s :: rest).length : Nat) : Int)) = some s := by
  simp only [arrayAt, List.length_cons]
  rw [if_neg (by omega : ¬ (0 : Int) ≤ -((rest.length + 1 : Nat) : Int))]
  rw [if_pos (by constructor <;> omega)]
  rw [show (((rest.length + 1 : Nat) : Int) +
      -((rest.length + 1 : Nat) : Int)).toNat = 0 by omega]
  rfl

/-- `Array.prototype.at(-(length + 1))` is off the front. -/
theorem arrayAt_neg_length_succ (l : List String) :
    arrayAt l (-((l.length : Int) + 1)) = none := by
  simp only [arrayAt]
  rw [if_neg (by omega : ¬ (0 : Int) ≤ -((l.length : Int) + 1))]
  rw [if_neg (by omega : ¬ ((0 : Int) ≤ (l.length : Int) +
    -((l.length : Int) + 1) ∧ (l.length : Int) + -((l.length : Int) + 1) <
      (l.length : Int)))]

/-- For a negative index, `segmentAt` is `Array.prototype.at` on the
materialized stream. -/
theorem segmentAt_neg (intl : EngineModel) (str : String) (i : Int)
    (g : Granularity) (opts : Options) (st : SegmenterCaches) (hi : i < 0) :
    (segmentAt intl str i g opts st).1 =
      arrayAt (getSegments intl str g opts st).1 i := by
  simp only [segmentAt]
  rw [if_pos hi]

/-- For a non-negative index, `segmentAt` is `List.get?` on the stream. -/
theorem segmentAt_nonneg (intl : EngineModel) (str : String) (i : Int)
    (g : Granularity) (opts : Options) (st : SegmenterCaches) (hi : 0 ≤ i) :
    (segmentAt intl str i g opts st).1 =
      (getSegments intl str g opts st).1.get? i.toNat := by
  simp only [segmentAt]
  rw [if_neg (by omega : ¬ i < 0)]
  exact segmentAtForward_nonneg _ i hi

/-- C2: for a negative index, `segmentAt` materializes the stream and
resolves the effective position `length + i`, returning "not found" (`none`,
no failure) outside `[0, length)` and the element there otherwise; in
particular index `-1` gives the last segment, `-length` the first, and
`-(length + 1)` is not found. -/
theorem claim_C2 (intl : EngineModel) (str : String) (g : Granularity)
    (opts : Options) (st : SegmenterCaches) :
    (∀ i : Int, i < 0 → (segmentAt intl str i g opts st).1 =
      (if 0 ≤ ((getSegments intl str g opts st).1.length : Int) + i ∧
          ((getSegments intl str g opts st).1.length : Int) + i <
            ((getSegments intl str g opts st).1.length : Int) then
        (getSegments intl str g opts st).1.get?
          (((getSegments intl str g opts st).1.length : Int) + i).toNat
      else none))
    ∧ (segmentAt intl str (-1) g opts st).1 =
        (getSegments intl str g opts st).1.getLast?
    ∧ (segmentAt intl str
        (-(((getSegments intl str g opts st).1.length : Nat) : Int))
        g opts st).1 = (getSegments intl str g opts st).1.head?
    ∧ (segmentAt intl str
        (-((((getSegments intl str g opts st).1.length : Nat) : Int) + 1))
        g opts st).1 = none := by
  refine ⟨?_, ?_, ?_, ?_⟩
  · intro i hi
    rw [segmentAt_neg intl str i g opts st hi]
    simp only [arrayAt]
    rw [if_neg (not_le.mpr hi)]
  · rw [segmentAt_neg intl str (-1) g opts st (by omega)]
    exact arrayAt_neg_one _
  · rcases hL : (getSegments intl str g opts st).1 with _ | ⟨s, rest⟩
    · simp only [List.length_nil, Nat.cast_zero, neg_zero]
      rw [segmentAt_nonneg intl str 0 g opts st le_rfl, hL]
      rfl
    · rw [segmentAt_neg intl str _ g opts st
        (by rw [List.length_cons]; omega)]
      rw [hL]
      rw [arrayAt_neg_length]
      rfl
  · rw [segmentAt_neg intl str _ g opts st (by omega)]
    exact arrayAt_neg_length_succ _

/-- Witness for C2 at a concrete input: the character engine on `"ab"`
resolves index `-2` to the first of the two segments. -/
theorem claim_C2_witness :
    (segmentAt charEngine "ab" (-2) Granularity.grapheme ⟨none, none⟩
      emptyCaches).1 = some "a" := by
  have h := (claim_C2 charEngine "ab" Granularity.grapheme ⟨none, none⟩
    emptyCaches).1 (-2) (by decide)
  rw [h]
  decide

/-- C3: for a non-negative index, `segmentAt` walks the stream forward with
a zero-based counter and equals element `i` of the materialized
`getSegments` sequence (`none` when the stream is exhausted first); at index
`count` it is "not found". -/
theorem claim_C3 (intl : EngineModel) (str : String) (g : Granularity)
    (opts : Options) (st : SegmenterCaches) :
    (∀ i : Int, 0 ≤ i → (segmentAt intl str i g opts st).1 =
      (getSegments intl str g opts st).1.get? i.toNat)
    ∧ (segmentAt intl str
        (((getSegments intl str g opts st).1.length : Nat) : Int)
        g opts st).1 = none := by
  constructor
  · intro i hi
    exact segmentAt_nonneg intl str i g opts st hi
  · rw [segmentAt_nonneg intl str _ g opts st (by omega)]
    rw [Int.toNat_natCast]
    exact get?_length_self _

/-- Witness for C3 at a concrete input: the character engine on `"ab"`
resolves index `1` to the second segment. -/
theorem claim_C3_witness :
    (segmentAt charEngine "ab" 1 Granularity.grapheme ⟨none, none⟩
      emptyCaches).1 = some "b" := by
  have h := (claim_C3 charEngine "ab" Granularity.grapheme ⟨none, none⟩
    emptyCaches).1 1 (by decide)
  rw [h]
  decide

/-- A contiguous stream with non-empty segments has strictly increasing
start offsets. -/
theorem validFrom_offsetsIncreasing : ∀ (segs : List SegmentData) (pos : Nat),
    validFrom pos segs = true → offsetsIncreasing segs = true
  | [], _, _ => rfl
  | [_], _, _ => rfl
  | a :: b :: rest, pos, h => by
      simp only [validFrom, Bool.and_eq_true, decide_eq_true_eq] at h
      obtain ⟨⟨ha, halen⟩, ⟨hbidx, hblen⟩, hrest⟩ := h
      have hrec : validFrom (pos + a.segment.length) (b :: rest) = true := by
        simp only [validFrom, Bool.and_eq_true, decide_eq_true_eq]
        exact ⟨⟨hbidx, hblen⟩, hrest⟩
      simp only [offsetsIncreasing, Bool.and_eq_true, decide_eq_true_eq]
      refine ⟨by omega, ?_⟩
      exact validFrom_offsetsIncreasing (b :: rest)
        (pos + a.segment.length) hrec

/-- C5: with the spec-modelled engine contract (contiguous, non-empty
records whose texts concatenate to the input), the unfiltered enumeration
concatenates back to the original input and its raw records have strictly
increasing start offsets, for every granularity and cache state. -/
theorem claim_C5 (intl : EngineModel) (str : String) (g : Granularity)
    (lo : Option LocalesArgument) (st : SegmenterCaches)
    (hvalid : ∀ l gr, validFrom 0 (intl l gr str) = true)
    (hconcat : ∀ l gr, concatSegments (intl l gr str) = str) :
    String.join ((getSegments intl str g ⟨lo, none⟩ st).1) = str
    ∧ offsetsIncreasing ((getRawSegments intl str g ⟨lo, none⟩ st).1) =
      true := by
  have hraw : (getRawSegments intl str g ⟨lo, none⟩ st).1 =
      Segmenter.segmentText intl (getCachedSegmenter lo g st).1 str := by
    simp only [getRawSegments]
    rw [if_neg (fun h => Option.noConfusion h.2)]
  constructor
  · show String.join (((getRawSegments intl str g ⟨lo, none⟩ st).1).map
      (fun s => s.segment)) = str
    rw [hraw]
    exact hconcat _ _
  · rw [hraw]
    exact validFrom_offsetsIncreasing _ 0 (hvalid _ _)

/-- Witness for C5 at a concrete input: the character engine on `"ab"`
satisfies the contract, so the enumeration concatenates back to `"ab"` with
increasing offsets. -/
theorem claim_C5_witness :
    String.join ((getSegments charEngine "ab" Granularity.word ⟨none, none⟩
      emptyCaches).1) = "ab"
    ∧ offsetsIncreasing ((getRawSegments charEngine "ab" Granularity.word
      ⟨none, none⟩ emptyCaches).1) = true :=
  claim_C5 charEngine "ab" Granularity.word none emptyCaches
    (fun _ _ => by
      show validFrom 0 (charSegsFrom 0 "ab".data) = true
      decide)
    (fun _ _ => by
      show concatSegments (charSegsFrom 0 "ab".data) = "ab"
      decide)

/-- Splitting at a separator character that occurs in neither prefix is
unambiguous. -/
theorem append_sep_inj : ∀ (a b x y : List Char),
    ('-' : Char) ∉ a → ('-' : Char) ∉ b →
    a ++ '-' :: x = b ++ '-' :: y → a = b ∧ x = y := by
  intro a
  induction a with
  | nil =>
      intro b x y _ hb h
      cases b with
      | nil => simpa using h
      | cons c bs =>
          simp only [List.nil_append, List.cons_append] at h
          obtain ⟨hc, _⟩ := List.cons.inj h
          have hmem : ('-' : Char) ∈ c :: bs := by
            rw [← hc]
            exact List.mem_cons_self _ _
          exact absurd hmem hb
  | cons c as ih =>
      intro b x y ha hb h
      cases b with
      | nil =>
          simp only [List.cons_append, List.nil_append] at h
          obtain ⟨hc, _⟩ := List.cons.inj h
          have hmem : ('-' : Char) ∈ c :: as := by
            rw [hc]
            exact List.mem_cons_self _ _
          exact absurd hmem ha
      | cons d bs =>
          simp only [List.cons_append] at h
          obtain ⟨hcd, htail⟩ := List.cons.inj h
          have hain : ('-' : Char) ∉ as := fun hm => ha (List.mem_cons_of_mem _ hm)
          have hbin : ('-' : Char) ∉ bs := fun hm => hb (List.mem_cons_of_mem _ hm)
          obtain ⟨h1, h2⟩ := ih bs x y hain hbin htail
          exact ⟨by rw [hcd, h1], h2⟩

/-- Two strings with the same character data are equal. -/
theorem string_data_inj (a b : String) (h : a.data = b.data) : a = b := by
  cases a
  cases b
  exact congrArg String.mk h

/-- The character data of a two-or-more-element join: head data, the
separator, then the data of the rest. -/
theorem joinDash_cons_cons_data (t r : String) (rs : List String) :
    (joinDash (t :: r :: rs)).data = t.data ++ '-' :: (joinDash (r :: rs)).data := by
  show (t ++ "-" ++ joinDash (r :: rs)).data = _
  rw [String.data_append, String.data_append]
  simp [List.append_assoc]

/-- A join of one or more nonempty tags is nonempty. -/
theorem joinDash_ne_empty : ∀ (tags : List String),
    (∀ t ∈ tags, t ≠ "") → tags ≠ [] → joinDash tags ≠ ""
  | [], h, hne, _ => hne rfl
  | [t], h, _, heq => (h t (List.mem_cons_self _ _)) heq
  | t :: r :: rs, _, _, heq => by
      have hdata := congrArg String.data heq
      rw [joinDash_cons_cons_data] at hdata
      simp at hdata

/-- On lists of nonempty, separator-free tags, `joinDash` is injective. -/
theorem joinDash_inj : ∀ (tags tags' : List String),
    (∀ t ∈ tags, t ≠ "" ∧ ('-' : Char) ∉ t.data) →
    (∀ t ∈ tags', t ≠ "" ∧ ('-' : Char) ∉ t.data) →
    joinDash tags = joinDash tags' → tags = tags' := by
  intro tags
  induction tags with
  | nil =>
      intro tags' h h' heq
      cases tags' with
      | nil => rfl
      | cons t' rest' =>
          exact absurd heq.symm (joinDash_ne_empty (t' :: rest')
            (fun t ht => (h' t ht).1) (List.cons_ne_nil _ _))
  | cons t rest ih =>
      intro tags' h h' heq
      cases tags' with
      | nil =>
          exact absurd heq (joinDash_ne_empty (t :: rest)
            (fun u hu => (h u hu).1) (List.cons_ne_nil _ _))
      | cons t' rest' =>
          cases rest with
          | nil =>
              cases rest' with
              | nil =>
                  rw [show joinDash [t] = t from rfl,
                    show joinDash [t'] = t' from rfl] at heq
                  rw [heq]
              | cons r' rs' =>
                  have hdata := congrArg String.data heq
                  rw [joinDash_cons_cons_data] at hdata
                  have : ('-' : Char) ∈ t.data := by
                    rw [show joinDash [t] = t from rfl] at hdata
                    rw [hdata]
                    simp
                  exact absurd this (h t (List.mem_cons_self _ _)).2
          | cons r rs =>
              cases rest' with
              | nil =>
                  have hdata := congrArg String.data heq
                  rw [joinDash_cons_cons_data] at hdata
                  have : ('-' : Char) ∈ t'.data := by
                    rw [show joinDash [t'] = t' from rfl] at hdata
                    rw [← hdata]
                    simp
                  exact absurd this (h' t' (List.mem_cons_self _ _)).2
              | cons r' rs' =>
                  have hdata := congrArg String.data heq
                  rw [joinDash_cons_cons_data, joinDash_cons_cons_data] at hdata
                  obtain ⟨h1, h2⟩ := append_sep_inj t.data t'.data
                    (joinDash (r :: rs)).data (joinDash (r' :: rs')).data
                    (h t (List.mem_cons_self _ _)).2
                    (h' t' (List.mem_cons_self _ _)).2 hdata
                  have hteq : t = t' := string_data_inj _ _ h1
                  have hrest : (r :: rs) = (r' :: rs') :=
                    ih (r' :: rs')
                      (fun u hu => h u (List.mem_cons_of_mem _ hu))
                      (fun u hu => h' u (List.mem_cons_of_mem _ hu))
                      (string_data_inj _ _ h2)
                  rw [hteq, hrest]

/-- C1 (amended): `normalizeLocaleKey` joins the string form of the list
elements with `"-"`, so two lists with identical tags in the same order
normalize identically; and for lists of nonempty identifiers that do not
contain the separator character `'-'`, any two lists that differ (including
only in order) normalize to different cache keys.  (The unrestricted
distinctness of the original claim fails because `'-'` occurs inside
canonical identifiers; see the counterexample.) -/
theorem claim_C1 (tags tags' : List String)
    (h : ∀ t ∈ tags, t ≠ "" ∧ ('-' : Char) ∉ t.data)
    (h' : ∀ t ∈ tags', t ≠ "" ∧ ('-' : Char) ∉ t.data) :
    normalizeLocaleKey (some (LocalesArgument.list tags)) = joinDash tags
    ∧ (normalizeLocaleKey (some (LocalesArgument.list tags)) =
        normalizeLocaleKey (some (LocalesArgument.list tags')) ↔
        tags = tags') := by
  refine ⟨rfl, ?_, ?_⟩
  · exact joinDash_inj tags tags' h h'
  · intro hE
    rw [hE]

/-- Counterexample to C1 as stated: the separator `"-"` does occur inside a
single well-formed identifier, so the two distinct lists `["de-DE"]` and
`["de", "DE"]` normalize to the same cache key. -/
theorem claim_C1_counterexample :
    normalizeLocaleKey (some (LocalesArgument.list ["de-DE"])) =
      normalizeLocaleKey (some (LocalesArgument.list ["de", "DE"]))
    ∧ (["de-DE"] : List String) ≠ ["de", "DE"] := by
  constructor
  · decide
  · decide

/-- Witness for the amended C1 at concrete separator-free inputs. -/
theorem claim_C1_witness :
    normalizeLocaleKey (some (LocalesArgument.list ["en", "GB"])) =
      joinDash ["en", "GB"]
    ∧ (normalizeLocaleKey (some (LocalesArgument.list ["en", "GB"])) =
        normalizeLocaleKey (some (LocalesArgument.list ["en"])) ↔
        (["en", "GB"] : List String) = ["en"]) :=
  claim_C1 ["en", "GB"] ["en"] (by decide) (by decide)
